import Mathlib

/-!
Verification of the document-signing GUI core

A shallow embedding of the signing/search/status components of the
repository (DocumentSigning.jsx, DocumentSearch.jsx, DocumentStatus.jsx,
App state).  JavaScript objects are embedded as association lists of
string keys and `Val` values; the JS string methods used by the code
(`<`, `toLowerCase`, `trim`) are embedded over the character data, and
`Array.prototype.sort` is embedded as a stable insertion sort (the
ECMAScript specification requires a stable sort).
-/

namespace Poc

/-! ## Data model and operations (embedded from the source) -/

/-- A JavaScript value, as far as the components use them. -/
inductive Val where
  | vStr (s : String)
  | vNum (n : Int)
  | vBool (b : Bool)
  | vNull
  | vUndef
deriving DecidableEq, Repr

/-- JS truthiness for the values above. -/
def Val.truthy : Val → Bool
  | .vStr s => s != ""
  | .vNum n => n != 0
  | .vBool b => b
  | .vNull => false
  | .vUndef => false

/-- JS `a || b` (value-returning or). -/
def jsOr (a b : Val) : Val := if a.truthy then a else b

/-- A JavaScript object: an association list of fields (JS objects have
unique keys; the embedding is used only on duplicate-free lists). -/
def Obj : Type := List (String × Val)

instance : DecidableEq Obj := inferInstanceAs (DecidableEq (List (String × Val)))

instance : Repr Obj := inferInstanceAs (Repr (List (String × Val)))

instance : Membership (String × Val) Obj := inferInstanceAs (Membership _ (List (String × Val)))

/-- JS property read `o[k]`: the value of the first binding of `k`,
`undefined` when absent. -/
def getField : Obj → String → Val
  | [], _ => .vUndef
  | p :: ps, k => if p.1 = k then p.2 else getField ps k

/-- The keys of an object. -/
def keys (o : Obj) : List String := o.map Prod.fst

/-- JS spread-with-override `{...o, k: v}`: replaces the binding of `k`
in place when present, appends it otherwise. -/
def setField : Obj → String → Val → Obj
  | [], k, v => [(k, v)]
  | p :: ps, k, v => if p.1 = k then (k, v) :: ps else p :: setField ps k v

/-- JS code-unit comparison of two characters. -/
def charLtB (a b : Char) : Bool := a.toNat < b.toNat

/-- JS `<` on strings: lexicographic by code units. -/
def lexLtB : List Char → List Char → Bool
  | [], [] => false
  | [], _ :: _ => true
  | _ :: _, [] => false
  | a :: as, b :: bs =>
    if charLtB a b then true else if charLtB b a then false else lexLtB as bs

/-- JS `a < b` for strings. -/
def jsStrLt (a b : String) : Bool := lexLtB a.data b.data

/-- JS `String.prototype.toLowerCase`. -/
def jsToLower (s : String) : String := ⟨s.data.map Char.toLower⟩

/-- JS `String.prototype.trim`. -/
def jsTrim (s : String) : String :=
  ⟨((s.data.dropWhile Char.isWhitespace).reverse.dropWhile Char.isWhitespace).reverse⟩

/-- Is the value a JS string? (`typeof aValue === 'string'`) -/
def Val.isString : Val → Bool
  | .vStr _ => true
  | _ => false

/-- Lower-casing `aValue.toLowerCase()` as applied by the comparator (identity on
non-strings; the code only reaches it for string columns). -/
def lowerVal : Val → Val
  | .vStr s => .vStr (jsToLower s)
  | v => v

/-- Date conversion `new Date(aValue)` reduced to its primitive comparison value (epoch
milliseconds); `parseDate` is the browser's date parser, an external
collaborator passed as a parameter. -/
def toDateVal (parseDate : String → Int) : Val → Val
  | .vStr s => .vNum (parseDate s)
  | .vNum n => .vNum n
  | v => v

/-- JS `<` between two same-type primitive values (the comparator only
compares values drawn from the same column; distinct shapes are
incomparable and compare equal). -/
def valLt : Val → Val → Bool
  | .vStr a, .vStr b => jsStrLt a b
  | .vNum a, .vNum b => decide (a < b)
  | .vBool a, .vBool b => !a && b
  | _, _ => false

/-- Sort direction. -/
inductive Direction where
  | asc
  | desc
deriving DecidableEq, Repr

/-- The 3-way comparison at the bottom of `sortResults`:
`if (aValue < bValue) return direction === 'asc' ? -1 : 1; ...`. -/
def cmp3 (direction : Direction) (x y : Val) : Int :=
  if valLt x y then (match direction with | .asc => -1 | .desc => 1)
  else if valLt y x then (match direction with | .asc => 1 | .desc => -1)
  else 0

/-- The comparator passed to `[...results].sort(...)` in `sortResults`:
dates for the `created_at` key, case-insensitive comparison for string
values, natural ordering otherwise. -/
def sortCompare (direction : Direction) (key : String) (parseDate : String → Int)
    (a b : Obj) : Int :=
  let aValue := getField a key
  let bValue := getField b key
  if key = "created_at" then
    cmp3 direction (toDateVal parseDate aValue) (toDateVal parseDate bValue)
  else if aValue.isString then
    cmp3 direction (lowerVal aValue) (lowerVal bValue)
  else
    cmp3 direction aValue bValue

def insertByCmp {α : Type} (cmp : α → α → Int) (x : α) : List α → List α
  | [] => [x]
  | y :: ys => if cmp x y ≤ 0 then x :: y :: ys else y :: insertByCmp cmp x ys

def sortByCmp {α : Type} (cmp : α → α → Int) : List α → List α
  | [] => []
  | x :: xs => insertByCmp cmp x (sortByCmp cmp xs)

/-- The normalisation `sortResults` applies to a column value before
comparing: date conversion for `created_at`, lower-casing for strings. -/
def normField (key : String) (parseDate : String → Int) (v : Val) : Val :=
  if key = "created_at" then toDateVal parseDate v else lowerVal v

/-- The `sortConfig` state: key null and direction ascending initially. -/
structure SortConfig where
  key : Option String
  direction : Direction
deriving DecidableEq, Repr

/-- The state of the DocumentSearch screen touched by the modelled
handlers. -/
structure SearchState where
  results : List Obj
  loading : Bool
  error : String
  sortConfig : SortConfig
  expandedMetadata : List Val
deriving DecidableEq, Repr

/-- Embedding of `sortResults(key)`: computes the direction (same key while ascending
flips to descending, anything else resets to ascending), sorts a copy of
`results` with the comparator and stores list and config. -/
def sortResults (key : String) (pd : String → Int) (st : SearchState) : SearchState :=
  let direction : Direction :=
    if st.sortConfig.key = some key ∧ st.sortConfig.direction = .asc then .desc else .asc
  { st with
    results := sortByCmp (sortCompare direction key pd) st.results,
    sortConfig := ⟨some key, direction⟩ }

/-- How a fetch inside `handleSearch` can end. -/
inductive SearchOutcome where
  | ok (signatures : Option (List Obj))
  | httpError (detail : Option String)
  | networkError
deriving Repr

/-- JS `a || b` where `a` is a possibly-absent string field. -/
def jsOrStr (a : Option String) (b : String) : String :=
  match a with
  | some s => if s = "" then b else s
  | none => b

/-- Embedding of `handleSearch`: clears error, results, sort config and expanded
metadata up front, then applies the outcome of the fetch; `loading` is
reset in the `finally` block. -/
def handleSearch (outcome : SearchOutcome) (st : SearchState) : SearchState :=
  let cleared : SearchState :=
    { st with
      loading := true, error := "", results := [],
      sortConfig := ⟨none, .asc⟩, expandedMetadata := [] }
  let applied : SearchState :=
    match outcome with
    | .ok sigs => { cleared with results := sigs.getD [] }
    | .httpError detail => { cleared with error := jsOrStr detail "Search failed" }
    | .networkError => { cleared with error := "Network error occurred" }
  { applied with loading := false }

/-- How the status fetch inside `handleUpdateStatus` can end. -/
inductive StatusOutcome where
  | ok (statusData : Obj)
  | httpError (detail : String)
  | networkError
deriving Repr

/-- The per-record merge of `handleUpdateStatus`:
`{...signature, status: statusData.status, signed: statusData.signed || false,
updated_at: now, last_status_check: now}`. -/
def mergeStatus (signature statusData : Obj) (now : String) : Obj :=
  setField
    (setField
      (setField
        (setField signature "status" (getField statusData "status"))
        "signed" (jsOr (getField statusData "signed") (.vBool false)))
      "updated_at" (.vStr now))
    "last_status_check" (.vStr now)

/-- Embedding of `handleUpdateStatus(documentId, service)`: on success, maps the merge
over the matching records; on failure, only an error message is set.
`loading` ends false via the `finally` block. -/
def handleUpdateStatus (documentId service : String) (outcome : StatusOutcome)
    (now : String) (st : SearchState) : SearchState :=
  match outcome with
  | .ok statusData =>
    { st with
      results := st.results.map (fun signature =>
        if getField signature "document_id" = .vStr documentId ∧
            getField signature "service" = .vStr service then
          mergeStatus signature statusData now
        else signature),
      error := "", loading := false }
  | .httpError detail =>
    { st with error := "Failed to update status: " ++ detail, loading := false }
  | .networkError =>
    { st with error := "Network error occurred while updating status", loading := false }

/-- How the delete request inside `handleDeleteSignature` can end. -/
inductive DeleteOutcome where
  | ok
  | httpError (detail : String)
  | networkError
deriving Repr

/-- Embedding of `handleDeleteSignature(signatureId)`: returns unchanged without
confirmation; on success filters the record out of `results`; on failure
sets an error and leaves `results` alone. -/
def handleDeleteSignature (signatureId : Val) (confirmed : Bool)
    (outcome : DeleteOutcome) (st : SearchState) : SearchState :=
  if !confirmed then st
  else
    match outcome with
    | .ok =>
      { st with
        results := st.results.filter (fun signature => getField signature "id" != signatureId),
        loading := false }
    | .httpError detail =>
      { st with error := "Failed to delete signature: " ++ detail, loading := false }
    | .networkError =>
      { st with error := "Network error occurred while deleting signature", loading := false }

/-- The search criteria fields of the DocumentSearch form. -/
structure SearchCriteria where
  document_id : String
  signer_email : String
  status : String
  service : String
deriving DecidableEq, Repr

/-- The entries `Object.entries(searchCriteria)` iterates over. -/
def criteriaEntries (c : SearchCriteria) : List (String × String) :=
  [("document_id", c.document_id), ("signer_email", c.signer_email),
   ("status", c.status), ("service", c.service)]

/-- One step of the `forEach`: `if (value && value.trim())
queryParams.append(key, value.trim())`. -/
def appendIfTruthy (q : List (String × String)) (kv : String × String) :
    List (String × String) :=
  if kv.2 != "" && jsTrim kv.2 != "" then q ++ [(kv.1, jsTrim kv.2)] else q

/-- The query built by `handleSearch`: the handler is always appended
first, then each non-blank criterion with its trimmed value. -/
def buildSearchQuery (userEmail : String) (c : SearchCriteria) :
    List (String × String) :=
  (criteriaEntries c).foldl appendIfTruthy [("handler", userEmail)]

/-- The part of a browser `File` object the component inspects. -/
structure FileObj where
  name : String
  type : String
deriving DecidableEq, Repr

/-- Embedding of `handleFileChange`: accepts the selected file only when its content
type is `application/pdf`; otherwise stores no file and an error.
Returns the new `(file, error)` state pair. -/
def handleFileChange (selectedFile : Option FileObj) : Option FileObj × String :=
  match selectedFile with
  | some f =>
    if f.type = "application/pdf" then (some f, "") else (none, "Please select a PDF file")
  | none => (none, "Please select a PDF file")

/-- One entry of the `signers` form state. -/
structure SignerInput where
  signer_name : String
  signer_email : String
  mode : String
deriving DecidableEq, Repr

/-- What `handleSubmit` does before/instead of the network call. -/
inductive SubmitStep where
  | rejected (reason : String)
  | sent (service : String) (signers : List SignerInput)
deriving DecidableEq, Repr

/-- The validation phase of `handleSubmit`: no file or an incomplete
signer aborts with an inline error before any request is built. -/
def handleSubmit (file : Option FileObj) (signers : List SignerInput)
    (service : String) : SubmitStep :=
  if file.isNone then .rejected "Please select a PDF file"
  else if signers.any (fun s => s.signer_name == "" || s.signer_email == "") then
    .rejected "Please fill in all signer information"
  else .sent service signers

/-- One entry of `data.signing_urls` in a submission response. -/
structure SigningUrlEntry where
  signer_name : String
  signer_email : String
  signing_url : Option String
  mode : String
  signed : Bool
deriving DecidableEq, Repr

/-- The fields of a successful submission response used by the success
branch of `handleSubmit`. -/
structure SigningResult where
  document_id : String
  signing_urls : List SigningUrlEntry
deriving DecidableEq, Repr

/-- JS truthiness of a possibly-null string property. -/
def optTruthy : Option String → Bool
  | some s => s != ""
  | none => false

/-- The success branch of `handleSubmit`: always publishes the document
id; publishes `data.signing_urls[0].signing_url` only when the list is
non-empty and that first URL is truthy.  Returns the new
`(lastDocumentId, lastSigningUrl)` pair. -/
def publishOnSuccess (data : SigningResult)
    (_lastDocumentId lastSigningUrl : Option String) : Option String × Option String :=
  let newUrl :=
    match data.signing_urls with
    | [] => lastSigningUrl
    | e :: _ => if optTruthy e.signing_url then e.signing_url else lastSigningUrl
  (some data.document_id, newUrl)

/-- The DocumentSigning screen state together with the shared session
state (`lastDocumentId`/`lastSigningUrl` live in App and are written via
setters passed down). -/
structure SigningScreenState where
  file : Option FileObj
  signers : List SignerInput
  result : Option SigningResult
  error : String
  loading : Bool
  lastDocumentId : Option String
  lastSigningUrl : Option String
deriving DecidableEq, Repr

/-- The `useEffect` on `[currentService]`: `setResult(null); setError('')`. -/
def onServiceChange (st : SigningScreenState) : SigningScreenState :=
  { st with result := none, error := "" }

/-- The initial `signers` state. -/
def initialSigners : List SignerInput :=
  [{ signer_name := "", signer_email := "", mode := "DIRECT_SIGNING" }]

/-- Embedding of `addSigner`: appends a blank signer. -/
def addSigner (signers : List SignerInput) : List SignerInput :=
  signers ++ [{ signer_name := "", signer_email := "", mode := "DIRECT_SIGNING" }]

/-- Embedding of `removeSigner(index)`: filters out position `index`, but only when
more than one signer is present. -/
def removeSigner (signers : List SignerInput) (index : Nat) : List SignerInput :=
  if signers.length > 1 then signers.eraseIdx index else signers

/-- A field of a signer row. -/
inductive SignerField where
  | name
  | email
  | mode
deriving DecidableEq, Repr

/-- Embedding of `handleSignerChange(index, field, value)`: updates one field of one
signer in a copy of the list. -/
def handleSignerChange (signers : List SignerInput) (index : Nat)
    (field : SignerField) (value : String) : List SignerInput :=
  match signers.get? index with
  | some s =>
    signers.set index
      (match field with
       | .name => { s with signer_name := value }
       | .email => { s with signer_email := value }
       | .mode => { s with mode := value })
  | none => signers

/-- The user interactions that mutate the `signers` form state. -/
inductive SignerOp where
  | add
  | remove (index : Nat)
  | change (index : Nat) (field : SignerField) (value : String)

/-- Applying one interaction. -/
def applySignerOp (signers : List SignerInput) : SignerOp → List SignerInput
  | .add => addSigner signers
  | .remove index => removeSigner signers index
  | .change index field value => handleSignerChange signers index field value

/-- The `signers` state reached from the initial state by a sequence of
interactions. -/
def runSignerOps (ops : List SignerOp) : List SignerInput :=
  ops.foldl applySignerOp initialSigners

/-- The condition of the auto-refresh `useEffect` of DocumentStatus:
`autoRefresh && documentId && status?.status !== 'completed'`; an
interval is scheduled exactly when it holds. -/
def autoRefreshIntervalSet (autoRefresh : Bool) (documentId : String)
    (status : Option Obj) : Bool :=
  autoRefresh && documentId != "" &&
    (match status with
     | none => true
     | some st => getField st "status" != .vStr "completed")

/-- The interval handle owned by one run of the effect. -/
structure IntervalHandle where
  active : Bool
deriving DecidableEq, Repr

/-- Running the effect body: schedules the 10s interval iff the guard
holds. -/
def runAutoRefreshEffect (autoRefresh : Bool) (documentId : String)
    (status : Option Obj) : IntervalHandle :=
  ⟨autoRefreshIntervalSet autoRefresh documentId status⟩

/-- The effect cleanup (run on re-render and on unmount):
`if (interval) clearInterval(interval)`. -/
def autoRefreshCleanup (_h : IntervalHandle) : IntervalHandle := ⟨false⟩

/-! ## Lemmas about the embedded operations -/

theorem getField_setField_self (o : Obj) (k : String) (v : Val) :
    getField (setField o k v) k = v := by
  induction o with
  | nil => simp [setField, getField]
  | cons p ps ih =>
    by_cases h : p.1 = k
    · simp [setField, h, getField]
    · simp [setField, h, getField, ih]

theorem getField_setField_ne (o : Obj) (k k' : String) (v : Val) (h : k' ≠ k) :
    getField (setField o k v) k' = getField o k' := by
  induction o with
  | nil =>
    simp only [setField, getField]
    rw [if_neg (Ne.symm h)]
  | cons p ps ih =>
    simp only [setField]
    by_cases hp : p.1 = k
    · rw [if_pos hp]
      have hpk' : p.1 ≠ k' := by rw [hp]; exact Ne.symm h
      simp only [getField]
      rw [if_neg (Ne.symm h), if_neg hpk']
    · rw [if_neg hp]
      simp only [getField]
      by_cases hp' : p.1 = k'
      · rw [if_pos hp', if_pos hp']
      · rw [if_neg hp', if_neg hp', ih]

theorem keys_setField_superset (o : Obj) (k : String) (v : Val) :
    ∀ k₀ ∈ keys o, k₀ ∈ keys (setField o k v) := by
  induction o with
  | nil => intro k₀ hk₀; simp [keys] at hk₀
  | cons p ps ih =>
    intro k₀ hk₀
    simp only [keys, List.map_cons, List.mem_cons] at hk₀
    by_cases hp : p.1 = k
    · simp only [setField, if_pos hp, keys, List.map_cons, List.mem_cons]
      rcases hk₀ with h | h
      · exact Or.inl (h.trans hp)
      · exact Or.inr h
    · simp only [setField, if_neg hp, keys, List.map_cons, List.mem_cons]
      rcases hk₀ with h | h
      · exact Or.inl h
      · exact Or.inr (ih k₀ (by simpa [keys] using h))

theorem lexLtB_asymm : ∀ as bs : List Char, lexLtB as bs → lexLtB bs as → False := by
  intro as
  induction as with
  | nil => intro bs h1 h2; cases bs <;> simp [lexLtB] at h1 h2
  | cons a as ih =>
    intro bs h1 h2
    cases bs with
    | nil => simp [lexLtB] at h1
    | cons b bs =>
      simp only [lexLtB] at h1 h2
      by_cases hab : charLtB a b
      · have : ¬ charLtB b a := by simp [charLtB] at *; omega
        simp [hab, this] at h2
      · by_cases hba : charLtB b a
        · simp [hab, hba] at h1
        · simp [hab, hba] at h1 h2
          exact ih bs h1 h2

theorem lexLtB_cons_eq (a b : Char) (as bs : List Char) :
    lexLtB (a :: as) (b :: bs) =
      if charLtB a b then true else if charLtB b a then false else lexLtB as bs := rfl

theorem lexLtB_trans :
    ∀ as bs cs : List Char, lexLtB as bs → lexLtB bs cs → lexLtB as cs := by
  intro as
  induction as with
  | nil =>
    intro bs cs h1 h2
    cases bs with
    | nil => simp [lexLtB] at h1
    | cons b bs => cases cs with
      | nil => simp [lexLtB] at h2
      | cons c cs => simp [lexLtB]
  | cons a as ih =>
    intro bs cs h1 h2
    cases bs with
    | nil => simp [lexLtB] at h1
    | cons b bs =>
      cases cs with
      | nil => simp [lexLtB] at h2
      | cons c cs =>
        rw [lexLtB_cons_eq] at h1 h2 ⊢
        rcases Nat.lt_trichotomy a.toNat b.toNat with hab | hab | hab
        · rcases Nat.lt_trichotomy b.toNat c.toNat with hbc | hbc | hbc
          · rw [if_pos (show charLtB a c = true by simp [charLtB]; omega)]
          · rw [if_pos (show charLtB a c = true by simp [charLtB]; omega)]
          · exfalso
            rw [if_neg (show ¬ charLtB b c = true by simp [charLtB]; omega),
                if_pos (show charLtB c b = true by simp [charLtB]; omega)] at h2
            exact Bool.false_ne_true h2
        · rcases Nat.lt_trichotomy b.toNat c.toNat with hbc | hbc | hbc
          · rw [if_pos (show charLtB a c = true by simp [charLtB]; omega)]
          · rw [if_neg (show ¬ charLtB a b = true by simp [charLtB]; omega),
                if_neg (show ¬ charLtB b a = true by simp [charLtB]; omega)] at h1
            rw [if_neg (show ¬ charLtB b c = true by simp [charLtB]; omega),
                if_neg (show ¬ charLtB c b = true by simp [charLtB]; omega)] at h2
            rw [if_neg (show ¬ charLtB a c = true by simp [charLtB]; omega),
                if_neg (show ¬ charLtB c a = true by simp [charLtB]; omega)]
            exact ih bs cs h1 h2
          · exfalso
            rw [if_neg (show ¬ charLtB b c = true by simp [charLtB]; omega),
                if_pos (show charLtB c b = true by simp [charLtB]; omega)] at h2
            exact Bool.false_ne_true h2
        · exfalso
          rw [if_neg (show ¬ charLtB a b = true by simp [charLtB]; omega),
              if_pos (show charLtB b a = true by simp [charLtB]; omega)] at h1
          exact Bool.false_ne_true h1

theorem valLt_asymm (x y : Val) (h1 : valLt x y) (h2 : valLt y x) : False := by
  cases x <;> cases y <;> simp [valLt, jsStrLt] at h1 h2
  · exact lexLtB_asymm _ _ h1 h2
  · omega
  · rcases h1 with ⟨hx, hy⟩
    rcases h2 with ⟨hy', hx'⟩
    rw [hx] at hx'
    exact Bool.false_ne_true hx'

theorem valLt_trans (x y z : Val) (h1 : valLt x y) (h2 : valLt y z) : valLt x z = true := by
  cases x <;> cases y <;> simp [valLt, jsStrLt] at h1 <;>
    cases z <;> simp [valLt, jsStrLt] at h2 ⊢
  · exact lexLtB_trans _ _ _ h1 h2
  · omega
  · exact ⟨h1.1, h2.2⟩

theorem cmp3_asc_anti (x y : Val) : cmp3 .asc y x = -(cmp3 .asc x y) := by
  unfold cmp3
  by_cases hxy : valLt x y = true
  · have hyx : ¬ valLt y x = true := fun h => valLt_asymm x y hxy h
    rw [if_neg hyx, if_pos hxy, if_pos hxy]
    decide
  · by_cases hyx : valLt y x = true
    · rw [if_pos hyx, if_neg hxy, if_pos hyx]
    · rw [if_neg hyx, if_neg hxy, if_neg hxy, if_neg hyx]
      rfl

theorem cmp3_desc_eq_neg (x y : Val) : cmp3 .desc x y = -(cmp3 .asc x y) := by
  unfold cmp3
  by_cases hxy : valLt x y = true
  · rw [if_pos hxy, if_pos hxy]
    decide
  · by_cases hyx : valLt y x = true
    · rw [if_neg hxy, if_pos hyx, if_neg hxy, if_pos hyx]
    · rw [if_neg hxy, if_neg hyx, if_neg hxy, if_neg hyx]
      rfl

theorem cmp3_asc_neg_iff (x y : Val) : cmp3 .asc x y < 0 ↔ valLt x y = true := by
  unfold cmp3
  by_cases hxy : valLt x y = true
  · simp [hxy]
  · by_cases hyx : valLt y x = true
    · simp [hxy, hyx]
    · simp [hxy, hyx]

theorem insertByCmp_perm {α : Type} (cmp : α → α → Int) (x : α) (l : List α) :
    (insertByCmp cmp x l).Perm (x :: l) := by
  induction l with
  | nil => exact List.Perm.refl _
  | cons y ys ih =>
    simp only [insertByCmp]
    by_cases h : cmp x y ≤ 0
    · rw [if_pos h]
    · rw [if_neg h]
      exact (ih.cons y).trans (List.Perm.swap x y ys)

theorem sortByCmp_perm {α : Type} (cmp : α → α → Int) (l : List α) :
    (sortByCmp cmp l).Perm l := by
  induction l with
  | nil => exact List.Perm.refl _
  | cons x xs ih =>
    exact (insertByCmp_perm cmp x (sortByCmp cmp xs)).trans (ih.cons x)

theorem insertByCmp_pairwise {α : Type} (cmp : α → α → Int)
    (hAnti : ∀ a b : α, cmp b a = -(cmp a b))
    (hTrans : ∀ a b c : α, cmp a b < 0 → cmp b c < 0 → cmp a c < 0)
    (x : α) :
    ∀ l : List α, l.Pairwise (fun a b => cmp a b < 0) →
      (∀ y ∈ l, cmp x y ≠ 0) →
      (insertByCmp cmp x l).Pairwise (fun a b => cmp a b < 0) := by
  intro l
  induction l with
  | nil => intro _ _; simp [insertByCmp]
  | cons y ys ih =>
    intro hl hx
    rcases List.pairwise_cons.mp hl with ⟨hy, hys⟩
    simp only [insertByCmp]
    by_cases h : cmp x y ≤ 0
    · rw [if_pos h]
      have hxy : cmp x y < 0 := lt_of_le_of_ne h (hx y (List.mem_cons_self y ys))
      refine List.pairwise_cons.mpr ⟨?_, hl⟩
      intro z hz
      rcases List.mem_cons.mp hz with rfl | hz'
      · exact hxy
      · exact hTrans x y z hxy (hy z hz')
    · rw [if_neg h]
      have hyx : cmp y x < 0 := by have h2 := hAnti x y; omega
      refine List.pairwise_cons.mpr
        ⟨?_, ih hys (fun z hz => hx z (List.mem_cons_of_mem y hz))⟩
      intro z hz
      have hz' : z ∈ x :: ys := (insertByCmp_perm cmp x ys).mem_iff.mp hz
      rcases List.mem_cons.mp hz' with rfl | hz''
      · exact hyx
      · exact hy z hz''

theorem sortByCmp_pairwise {α : Type} (cmp : α → α → Int)
    (hAnti : ∀ a b : α, cmp b a = -(cmp a b))
    (hTrans : ∀ a b c : α, cmp a b < 0 → cmp b c < 0 → cmp a c < 0) :
    ∀ l : List α, l.Pairwise (fun a b => cmp a b ≠ 0) →
      (sortByCmp cmp l).Pairwise (fun a b => cmp a b < 0) := by
  intro l
  induction l with
  | nil => intro _; simp [sortByCmp]
  | cons x xs ih =>
    intro hl
    rcases List.pairwise_cons.mp hl with ⟨hx, hxs⟩
    exact insertByCmp_pairwise cmp hAnti hTrans x (sortByCmp cmp xs) (ih hxs)
      (fun y hy => hx y ((sortByCmp_perm cmp xs).mem_iff.mp hy))

/-- Two permutations of each other that are both strictly sorted by an
asymmetric relation are equal. -/
theorem eq_of_perm_of_pairwise {α : Type} {r : α → α → Prop}
    (hasym : ∀ a b, r a b → r b a → False) :
    ∀ l₁ l₂ : List α, l₁.Perm l₂ → l₁.Pairwise r → l₂.Pairwise r → l₁ = l₂ := by
  intro l₁
  induction l₁ with
  | nil => intro l₂ hp _ _; exact hp.symm.eq_nil.symm
  | cons a t₁ ih =>
    intro l₂ hp h1 h2
    cases l₂ with
    | nil => exact (List.cons_ne_nil a t₁ hp.eq_nil).elim
    | cons b t₂ =>
      by_cases hab : a = b
      · subst hab
        rw [ih t₂ hp.cons_inv (List.pairwise_cons.mp h1).2 (List.pairwise_cons.mp h2).2]
      · exfalso
        have ha : a ∈ b :: t₂ := hp.mem_iff.mp (List.mem_cons_self a t₁)
        have hb : b ∈ a :: t₁ := hp.symm.mem_iff.mp (List.mem_cons_self b t₂)
        rcases List.mem_cons.mp ha with h | ha'
        · exact hab h
        rcases List.mem_cons.mp hb with h | hb'
        · exact hab h.symm
        exact hasym a b ((List.pairwise_cons.mp h1).1 b hb') ((List.pairwise_cons.mp h2).1 a ha')

/-- Re-sorting an already sorted list with the negated comparator
reverses it, provided all elements compare strictly. -/
theorem sortByCmp_neg_reverse {α : Type} (cmp : α → α → Int)
    (hAnti : ∀ a b : α, cmp b a = -(cmp a b))
    (hTrans : ∀ a b c : α, cmp a b < 0 → cmp b c < 0 → cmp a c < 0)
    (l : List α) (hne : l.Pairwise (fun a b => cmp a b ≠ 0)) :
    sortByCmp (fun a b => -(cmp a b)) (sortByCmp cmp l) = (sortByCmp cmp l).reverse := by
  have hAperm : (sortByCmp cmp l).Perm l := sortByCmp_perm cmp l
  have hsym : ∀ {a b : α}, cmp a b ≠ 0 → cmp b a ≠ 0 := by
    intro a b h
    have h2 := hAnti a b
    omega
  have hneA : (sortByCmp cmp l).Pairwise (fun a b => cmp a b ≠ 0) :=
    (List.Perm.pairwise_iff (fun h => hsym h) hAperm).mpr hne
  have hAsorted : (sortByCmp cmp l).Pairwise (fun a b => cmp a b < 0) :=
    sortByCmp_pairwise cmp hAnti hTrans l hne
  have hdAnti : ∀ a b : α, -(cmp b a) = -(-(cmp a b)) := by
    intro a b
    have h2 := hAnti a b
    omega
  have hdTrans : ∀ a b c : α, -(cmp a b) < 0 → -(cmp b c) < 0 → -(cmp a c) < 0 := by
    intro a b c h1 h2
    have hba : cmp b a < 0 := by have h3 := hAnti a b; omega
    have hcb : cmp c b < 0 := by have h3 := hAnti b c; omega
    have hca := hTrans c b a hcb hba
    have h4 := hAnti a c
    omega
  have hneA' : (sortByCmp cmp l).Pairwise (fun a b => -(cmp a b) ≠ 0) :=
    hneA.imp (by intro a b h; omega)
  have hDsorted := sortByCmp_pairwise (fun a b => -(cmp a b)) hdAnti hdTrans
    (sortByCmp cmp l) hneA'
  have hRsorted : (sortByCmp cmp l).reverse.Pairwise (fun a b => -(cmp a b) < 0) := by
    rw [List.pairwise_reverse]
    exact hAsorted.imp (by intro a b h; have h2 := hAnti a b; omega)
  have hperm2 : (sortByCmp (fun a b => -(cmp a b)) (sortByCmp cmp l)).Perm
      (sortByCmp cmp l).reverse :=
    (sortByCmp_perm _ _).trans ((sortByCmp cmp l).reverse_perm).symm
  exact eq_of_perm_of_pairwise
    (fun a b h1 h2 => by dsimp only at h1 h2; have h3 := hAnti a b; omega)
    _ _ hperm2 hDsorted hRsorted

theorem sortCompare_eq_cmp3 (direction : Direction) (key : String)
    (pd : String → Int) (a b : Obj) :
    sortCompare direction key pd a b
      = cmp3 direction (normField key pd (getField a key))
          (normField key pd (getField b key)) := by
  unfold sortCompare normField
  by_cases hk : key = "created_at"
  · rw [if_pos hk, if_pos hk, if_pos hk]
  · rw [if_neg hk, if_neg hk, if_neg hk]
    by_cases ha : (getField a key).isString
    · rw [if_pos ha]
    · rw [if_neg ha]
      cases hA : getField a key <;> rw [hA] at ha <;>
        first
          | exact absurd rfl ha
          | (cases hB : getField b key <;> simp [lowerVal, cmp3, valLt])

theorem sortCompare_asc_anti (key : String) (pd : String → Int) (a b : Obj) :
    sortCompare .asc key pd b a = -(sortCompare .asc key pd a b) := by
  rw [sortCompare_eq_cmp3, sortCompare_eq_cmp3]
  exact cmp3_asc_anti _ _

theorem sortCompare_asc_trans (key : String) (pd : String → Int) (a b c : Obj)
    (h1 : sortCompare .asc key pd a b < 0) (h2 : sortCompare .asc key pd b c < 0) :
    sortCompare .asc key pd a c < 0 := by
  rw [sortCompare_eq_cmp3] at h1 h2 ⊢
  rw [cmp3_asc_neg_iff] at h1 h2 ⊢
  exact valLt_trans _ _ _ h1 h2

theorem sortCompare_desc_eq_neg (key : String) (pd : String → Int) :
    sortCompare .desc key pd = fun a b => -(sortCompare .asc key pd a b) := by
  funext a b
  rw [sortCompare_eq_cmp3, sortCompare_eq_cmp3]
  exact cmp3_desc_eq_neg _ _

theorem appendCond_iff (v : String) :
    ((v != "" && jsTrim v != "") = true) ↔ jsTrim v ≠ "" := by
  constructor
  · intro h
    simp only [Bool.and_eq_true, bne_iff_ne] at h
    exact h.2
  · intro h
    simp only [Bool.and_eq_true, bne_iff_ne]
    refine ⟨?_, h⟩
    intro hv
    apply h
    rw [hv]
    decide

theorem mem_foldl_appendIfTruthy (entries : List (String × String))
    (acc : List (String × String)) (p : String × String) :
    p ∈ entries.foldl appendIfTruthy acc ↔
      p ∈ acc ∨ ∃ kv ∈ entries, (kv.2 != "" && jsTrim kv.2 != "") = true ∧
        p = (kv.1, jsTrim kv.2) := by
  induction entries generalizing acc with
  | nil => simp
  | cons kv rest ih =>
    simp only [List.foldl_cons]
    rw [ih]
    constructor
    · rintro (hacc | ⟨kv', hkv', hc', hp⟩)
      · unfold appendIfTruthy at hacc
        by_cases hcond : (kv.2 != "" && jsTrim kv.2 != "") = true
        · rw [if_pos hcond] at hacc
          rcases List.mem_append.mp hacc with h | h
          · exact Or.inl h
          · simp only [List.mem_singleton] at h
            exact Or.inr ⟨kv, List.mem_cons_self _ _, hcond, h⟩
        · rw [if_neg hcond] at hacc
          exact Or.inl hacc
      · exact Or.inr ⟨kv', List.mem_cons_of_mem _ hkv', hc', hp⟩
    · rintro (hacc | ⟨kv', hkv', hc', hp⟩)
      · left
        unfold appendIfTruthy
        by_cases hcond : (kv.2 != "" && jsTrim kv.2 != "") = true
        · rw [if_pos hcond]
          exact List.mem_append_left _ hacc
        · rw [if_neg hcond]
          exact hacc
      · rcases List.mem_cons.mp hkv' with heq | hmem
        · subst heq
          left
          unfold appendIfTruthy
          rw [if_pos hc']
          exact List.mem_append_right _ (by simp [hp])
        · exact Or.inr ⟨kv', hmem, hc', hp⟩

/-! ## The claims -/

/-- C1, counterexample: the status-update merge does not leave every
field that is absent from the status response unchanged.  For a stored
record with `signed: true` and a status response without `signed`, the
merge overwrites `signed` with `false` (because of
`signed: statusData.signed || false`). -/
theorem C1_counterexample :
    "signed" ∉ keys ([("status", Val.vStr "pending")] : Obj) ∧
    getField
        (mergeStatus
          [("document_id", Val.vStr "doc-1"), ("service", Val.vStr "scrive"),
           ("signed", Val.vBool true)]
          [("status", Val.vStr "pending")] "2024-01-01T00:00:00Z")
        "signed"
      ≠ getField
        ([("document_id", Val.vStr "doc-1"), ("service", Val.vStr "scrive"),
          ("signed", Val.vBool true)] : Obj)
        "signed" := by
  decide

/-- C1 (amended): the merged record keeps every key of the pre-merge
record, and every field other than the four fields the merge writes
(`status`, `signed`, `updated_at`, `last_status_check`) keeps its
pre-merge value.  (`status` and `signed` are always written — `signed`
falls back to `false` when absent from the response — and
`updated_at`/`last_status_check` are stamped with the current time even
though they are never part of the response.) -/
theorem C1_merge_frame (record statusData : Obj) (now : String) :
    (∀ k ∈ keys record, k ∈ keys (mergeStatus record statusData now)) ∧
    (∀ k : String,
      k ∉ (["status", "signed", "updated_at", "last_status_check"] : List String) →
      getField (mergeStatus record statusData now) k = getField record k) := by
  constructor
  · intro k hk
    exact keys_setField_superset _ _ _ _
      (keys_setField_superset _ _ _ _
        (keys_setField_superset _ _ _ _
          (keys_setField_superset _ _ _ _ hk)))
  · intro k hk
    simp only [List.mem_cons, List.not_mem_nil, or_false, not_or] at hk
    obtain ⟨h1, h2, h3, h4⟩ := hk
    unfold mergeStatus
    rw [getField_setField_ne _ _ _ _ h4, getField_setField_ne _ _ _ _ h3,
        getField_setField_ne _ _ _ _ h2, getField_setField_ne _ _ _ _ h1]

/-- C1, witness: a `metadata` field untouched by the merge keeps its
value. -/
theorem C1_witness :
    "metadata" ∉ (["status", "signed", "updated_at", "last_status_check"] : List String) ∧
    getField
        (mergeStatus [("document_id", Val.vStr "doc-1"), ("metadata", Val.vStr "m")]
          [("status", Val.vStr "completed")] "2024-01-02T00:00:00Z")
        "metadata"
      = getField ([("document_id", Val.vStr "doc-1"), ("metadata", Val.vStr "m")] : Obj)
          "metadata" :=
  ⟨by decide,
   (C1_merge_frame [("document_id", Val.vStr "doc-1"), ("metadata", Val.vStr "m")]
     [("status", Val.vStr "completed")] "2024-01-02T00:00:00Z").2 "metadata" (by decide)⟩

/-- C2, counterexample: a search that fails with a network error does
not leave the previously displayed results untouched — `handleSearch`
clears `results` before fetching, so the prior single-record list is
gone afterwards. -/
theorem C2_counterexample :
    (handleSearch .networkError
        { results := [[("id", Val.vNum 1)]], loading := false, error := "",
          sortConfig := ⟨none, Direction.asc⟩, expandedMetadata := [] }).results
      ≠ [[("id", Val.vNum 1)]] := by
  decide

/-- C2 (amended): a search that fails (non-success response or network
error) leaves the result list empty — it is cleared when the search
starts, not preserved — and surfaces a single non-empty error
message. -/
theorem C2_failed_search_clears (st : SearchState) :
    (∀ detail : Option String,
      (handleSearch (.httpError detail) st).results = [] ∧
      (handleSearch (.httpError detail) st).error ≠ "") ∧
    ((handleSearch .networkError st).results = [] ∧
      (handleSearch .networkError st).error = "Network error occurred") := by
  refine ⟨fun detail => ⟨rfl, ?_⟩, rfl, rfl⟩
  show jsOrStr detail "Search failed" ≠ ""
  cases detail with
  | none => decide
  | some s =>
    simp only [jsOrStr]
    by_cases hs : s = ""
    · rw [if_pos hs]; decide
    · rw [if_neg hs]; exact hs

/-- C3, counterexample: the auto-refresh effect keeps its interval
scheduled while the observed status is the terminal `cancelled` — the
guard only checks for `completed`. -/
theorem C3_counterexample :
    (runAutoRefreshEffect true "doc-1" (some [("status", Val.vStr "cancelled")])).active
      = true := by
  decide

/-- C3 (amended): the auto-refresh loop stops only once the status
`completed` is observed (not for `cancelled` or `failed`, for which
polling keeps running), and the effect cleanup always cancels the
scheduled interval when the screen is torn down. -/
theorem C3_auto_refresh (autoRefresh : Bool) (documentId : String) (status : Obj)
    (h : getField status "status" = .vStr "completed") :
    (runAutoRefreshEffect autoRefresh documentId (some status)).active = false ∧
    (∀ handle : IntervalHandle, (autoRefreshCleanup handle).active = false) := by
  refine ⟨?_, fun _ => rfl⟩
  simp [runAutoRefreshEffect, autoRefreshIntervalSet, h]

/-- C3, witness: with a `completed` record no interval is scheduled. -/
theorem C3_witness :
    getField ([("status", Val.vStr "completed")] : Obj) "status" = Val.vStr "completed" ∧
    (runAutoRefreshEffect true "doc-9" (some [("status", Val.vStr "completed")])).active
      = false :=
  ⟨by decide, (C3_auto_refresh true "doc-9" [("status", Val.vStr "completed")] (by decide)).1⟩

/-- C4, counterexample: a successful submission whose first signer has
no signing URL but whose second one does: at least one signer's URL is
present in `signing_urls`, yet `lastSigningUrl` is not published (the
code only inspects `signing_urls[0]`). -/
theorem C4_counterexample :
    (([⟨"Ann", "ann@x.com", none, "EMAIL_NOTIFICATION", false⟩,
       ⟨"Bob", "bob@x.com", some "https://sign.example/bob", "DIRECT_SIGNING", false⟩] :
        List SigningUrlEntry).any (fun e => optTruthy e.signing_url) = true) ∧
    (publishOnSuccess
        ⟨"doc-7",
         [⟨"Ann", "ann@x.com", none, "EMAIL_NOTIFICATION", false⟩,
          ⟨"Bob", "bob@x.com", some "https://sign.example/bob", "DIRECT_SIGNING", false⟩]⟩
        none none).2
      = none := by
  constructor
  · decide
  · decide

/-- C4 (amended): on success `lastDocumentId` is always set to the
result's document id, and `lastSigningUrl` is set — to the first entry's
URL — if and only if `signing_urls` is non-empty and its first entry's
`signing_url` is truthy; otherwise it keeps its previous value. -/
theorem C4_publish_rule (data : SigningResult) (prevDoc prevUrl : Option String) :
    (publishOnSuccess data prevDoc prevUrl).1 = some data.document_id ∧
    (data.signing_urls = [] → (publishOnSuccess data prevDoc prevUrl).2 = prevUrl) ∧
    (∀ (e : SigningUrlEntry) (rest : List SigningUrlEntry),
      data.signing_urls = e :: rest →
      (optTruthy e.signing_url = true →
        (publishOnSuccess data prevDoc prevUrl).2 = e.signing_url) ∧
      (optTruthy e.signing_url = false →
        (publishOnSuccess data prevDoc prevUrl).2 = prevUrl)) := by
  refine ⟨rfl, ?_, ?_⟩
  · intro h
    simp [publishOnSuccess, h]
  · intro e rest h
    constructor
    · intro ht
      simp [publishOnSuccess, h, ht]
    · intro hf
      simp [publishOnSuccess, h, hf]

/-- C4, witness: a single signer with a truthy URL gets published. -/
theorem C4_witness :
    optTruthy (some "https://sign.example/ann") = true ∧
    (publishOnSuccess
        ⟨"doc-3", [⟨"Ann", "ann@x.com", some "https://sign.example/ann",
                    "DIRECT_SIGNING", false⟩]⟩
        none none).2
      = (⟨"Ann", "ann@x.com", some "https://sign.example/ann",
          "DIRECT_SIGNING", false⟩ : SigningUrlEntry).signing_url :=
  ⟨by decide,
   ((C4_publish_rule
      ⟨"doc-3", [⟨"Ann", "ann@x.com", some "https://sign.example/ann",
                  "DIRECT_SIGNING", false⟩]⟩
      none none).2.2 _ [] rfl).1 (by decide)⟩

/-- C5, counterexample: two records whose `document_id` values `"a"` and
`"A"` are pairwise distinct but compare equal case-insensitively.
Sorting ascending and then descending leaves the stable order unchanged
both times, so the descending order is not the reverse of the ascending
one. -/
theorem C5_counterexample :
    Val.vStr "a" ≠ Val.vStr "A" ∧
    (sortResults "document_id" (fun _ => 0)
        (sortResults "document_id" (fun _ => 0)
          { results := [[("document_id", Val.vStr "a"), ("id", Val.vNum 1)],
                        [("document_id", Val.vStr "A"), ("id", Val.vNum 2)]],
            loading := false, error := "", sortConfig := ⟨none, Direction.asc⟩,
            expandedMetadata := [] })).results
      ≠ (sortResults "document_id" (fun _ => 0)
          { results := [[("document_id", Val.vStr "a"), ("id", Val.vNum 1)],
                        [("document_id", Val.vStr "A"), ("id", Val.vNum 2)]],
            loading := false, error := "", sortConfig := ⟨none, Direction.asc⟩,
            expandedMetadata := [] }).results.reverse := by
  constructor
  · decide
  · decide

/-- C5 (amended): for records whose values at the sort key are pairwise
distinct *under the comparator* (in particular, case-insensitively
distinct for string columns), sorting by a new key sorts ascending and
sorting by the same key again sorts descending, and the descending order
is the exact reverse of the ascending one.  String values compare by
their lower-cased form and `created_at` values compare as parsed date
instants. -/
theorem C5_sort_reverse (key : String) (pd : String → Int) (st : SearchState)
    (hkey : st.sortConfig.key ≠ some key)
    (hne : st.results.Pairwise (fun a b => sortCompare .asc key pd a b ≠ 0)) :
    (sortResults key pd st).sortConfig = ⟨some key, .asc⟩ ∧
    (sortResults key pd (sortResults key pd st)).sortConfig = ⟨some key, .desc⟩ ∧
    (sortResults key pd (sortResults key pd st)).results
      = (sortResults key pd st).results.reverse ∧
    (∀ (u v : String) (d : Direction), key ≠ "created_at" →
      sortCompare d key pd [(key, Val.vStr u)] [(key, Val.vStr v)]
        = cmp3 d (Val.vStr (jsToLower u)) (Val.vStr (jsToLower v))) ∧
    (∀ (u v : String) (d : Direction),
      sortCompare d "created_at" pd [("created_at", Val.vStr u)]
          [("created_at", Val.vStr v)]
        = cmp3 d (Val.vNum (pd u)) (Val.vNum (pd v))) := by
  have hcfg : ∀ st' : SearchState, (sortResults key pd st').sortConfig =
      ⟨some key,
        if st'.sortConfig.key = some key ∧ st'.sortConfig.direction = .asc
        then .desc else .asc⟩ := fun _ => rfl
  have hres : ∀ st' : SearchState, (sortResults key pd st').results =
      sortByCmp
        (sortCompare
          (if st'.sortConfig.key = some key ∧ st'.sortConfig.direction = .asc
           then .desc else .asc) key pd)
        st'.results := fun _ => rfl
  have hdir1 :
      (if st.sortConfig.key = some key ∧ st.sortConfig.direction = .asc
       then Direction.desc else Direction.asc) = .asc :=
    if_neg (fun hc => hkey hc.1)
  have hfirst : (sortResults key pd st).sortConfig = ⟨some key, .asc⟩ := by
    rw [hcfg, hdir1]
  refine ⟨hfirst, ?_, ?_, ?_, ?_⟩
  · rw [hcfg, hfirst]
    dsimp only
    rw [if_pos ⟨rfl, rfl⟩]
  · rw [hres (sortResults key pd st), hfirst, hres st, hdir1]
    dsimp only
    rw [if_pos ⟨rfl, rfl⟩]
    rw [sortCompare_desc_eq_neg]
    exact sortByCmp_neg_reverse (sortCompare .asc key pd)
      (sortCompare_asc_anti key pd) (sortCompare_asc_trans key pd) st.results hne
  · intro u v d hk
    simp [sortCompare, getField, hk, Val.isString, lowerVal]
  · intro u v d
    simp [sortCompare, getField, toDateVal]

/-- C5, witness: two records with case-insensitively distinct statuses:
ascending then descending yields the exact reverse. -/
theorem C5_witness :
    ((none : Option String) ≠ some "status") ∧
    ([[("status", Val.vStr "pending"), ("id", Val.vNum 1)],
      [("status", Val.vStr "signed"), ("id", Val.vNum 2)]] :
        List Obj).Pairwise
      (fun a b => sortCompare .asc "status" (fun _ => 0) a b ≠ 0) ∧
    (sortResults "status" (fun _ => 0)
        (sortResults "status" (fun _ => 0)
          { results := [[("status", Val.vStr "pending"), ("id", Val.vNum 1)],
                        [("status", Val.vStr "signed"), ("id", Val.vNum 2)]],
            loading := false, error := "", sortConfig := ⟨none, Direction.asc⟩,
            expandedMetadata := [] })).results
      = (sortResults "status" (fun _ => 0)
          { results := [[("status", Val.vStr "pending"), ("id", Val.vNum 1)],
                        [("status", Val.vStr "signed"), ("id", Val.vNum 2)]],
            loading := false, error := "", sortConfig := ⟨none, Direction.asc⟩,
            expandedMetadata := [] }).results.reverse := by
  refine ⟨by decide, ?_, ?_⟩
  · refine List.Pairwise.cons ?_ (List.Pairwise.cons (by simp) List.Pairwise.nil)
    intro y hy
    simp only [List.mem_cons, List.not_mem_nil, or_false] at hy
    subst hy
    decide
  · exact (C5_sort_reverse "status" (fun _ => 0)
      { results := [[("status", Val.vStr "pending"), ("id", Val.vNum 1)],
                    [("status", Val.vStr "signed"), ("id", Val.vNum 2)]],
        loading := false, error := "", sortConfig := ⟨none, Direction.asc⟩,
        expandedMetadata := [] }
      (by decide)
      (by refine List.Pairwise.cons ?_ (List.Pairwise.cons (by simp) List.Pairwise.nil)
          intro y hy
          simp only [List.mem_cons, List.not_mem_nil, or_false] at hy
          subst hy
          decide)).2.2.1

/-- C6: a confirmed delete that succeeds removes exactly the records
with the given id and keeps the remaining records in their original
relative order (in particular, for three records with distinct ids,
deleting the second leaves the other two in order); a confirmed delete
that fails leaves the result list unchanged and reports an error. -/
theorem C6_delete_exact (sid : Val) (st : SearchState) :
    ((handleDeleteSignature sid true .ok st).results
        = st.results.filter (fun r => getField r "id" != sid) ∧
      (handleDeleteSignature sid true .ok st).results.Sublist st.results ∧
      (∀ r : Obj, r ∈ (handleDeleteSignature sid true .ok st).results ↔
        r ∈ st.results ∧ getField r "id" ≠ sid)) ∧
    (∀ r1 r2 r3 : Obj,
      getField r1 "id" ≠ getField r2 "id" → getField r3 "id" ≠ getField r2 "id" →
      (handleDeleteSignature (getField r2 "id") true .ok
          { st with results := [r1, r2, r3] }).results = [r1, r3]) ∧
    (∀ detail : String,
      (handleDeleteSignature sid true (.httpError detail) st).results = st.results ∧
      (handleDeleteSignature sid true (.httpError detail) st).error
        = "Failed to delete signature: " ++ detail) ∧
    ((handleDeleteSignature sid true .networkError st).results = st.results ∧
      (handleDeleteSignature sid true .networkError st).error
        = "Network error occurred while deleting signature") := by
  refine ⟨⟨rfl, ?_, ?_⟩, ?_, fun detail => ⟨rfl, rfl⟩, rfl, rfl⟩
  · exact List.filter_sublist _
  · intro r
    show r ∈ st.results.filter (fun r => getField r "id" != sid) ↔ _
    rw [List.mem_filter]
    simp [bne_iff_ne]
  · intro r1 r2 r3 h1 h3
    show List.filter (fun r => getField r "id" != getField r2 "id") [r1, r2, r3] = [r1, r3]
    have e1 : (getField r1 "id" != getField r2 "id") = true := bne_iff_ne.mpr h1
    have e2 : (getField r2 "id" != getField r2 "id") = false := by simp
    have e3 : (getField r3 "id" != getField r2 "id") = true := bne_iff_ne.mpr h3
    simp [List.filter, e1, e2, e3]

/-- C6, witness: three records with ids 1, 2, 3; deleting id 2 leaves
records 1 and 3 in order. -/
theorem C6_witness :
    getField ([("id", Val.vNum 1)] : Obj) "id" ≠ getField ([("id", Val.vNum 2)] : Obj) "id" ∧
    (handleDeleteSignature (getField ([("id", Val.vNum 2)] : Obj) "id") true .ok
        { results := [[("id", Val.vNum 1)], [("id", Val.vNum 2)], [("id", Val.vNum 3)]],
          loading := false, error := "", sortConfig := ⟨none, Direction.asc⟩,
          expandedMetadata := [] }).results
      = [[("id", Val.vNum 1)], [("id", Val.vNum 3)]] := by
  refine ⟨by decide, ?_⟩
  have h := (C6_delete_exact (getField ([("id", Val.vNum 2)] : Obj) "id")
    { results := [], loading := false, error := "", sortConfig := ⟨none, Direction.asc⟩,
      expandedMetadata := [] }).2.1
    [("id", Val.vNum 1)] [("id", Val.vNum 2)] [("id", Val.vNum 3)]
    (by decide) (by decide)
  exact h

/-- C7: the outgoing search query always contains the implicit
`handler = user email` filter; each optional criterion appears — with
its trimmed value — when it is non-blank after trimming; and nothing
else is ever sent: every query entry is either the handler or a
non-blank trimmed criterion. -/
theorem C7_query_construction (email : String) (c : SearchCriteria) :
    ("handler", email) ∈ buildSearchQuery email c ∧
    (jsTrim c.document_id ≠ "" →
      ("document_id", jsTrim c.document_id) ∈ buildSearchQuery email c) ∧
    (jsTrim c.signer_email ≠ "" →
      ("signer_email", jsTrim c.signer_email) ∈ buildSearchQuery email c) ∧
    (jsTrim c.status ≠ "" →
      ("status", jsTrim c.status) ∈ buildSearchQuery email c) ∧
    (jsTrim c.service ≠ "" →
      ("service", jsTrim c.service) ∈ buildSearchQuery email c) ∧
    (∀ p ∈ buildSearchQuery email c,
      p = ("handler", email) ∨
      (jsTrim c.document_id ≠ "" ∧ p = ("document_id", jsTrim c.document_id)) ∨
      (jsTrim c.signer_email ≠ "" ∧ p = ("signer_email", jsTrim c.signer_email)) ∨
      (jsTrim c.status ≠ "" ∧ p = ("status", jsTrim c.status)) ∨
      (jsTrim c.service ≠ "" ∧ p = ("service", jsTrim c.service))) := by
  refine ⟨?_, ?_, ?_, ?_, ?_, ?_⟩
  · exact (mem_foldl_appendIfTruthy _ _ _).mpr (Or.inl (by simp))
  · intro h
    exact (mem_foldl_appendIfTruthy _ _ _).mpr
      (Or.inr ⟨("document_id", c.document_id), by simp [criteriaEntries],
        (appendCond_iff _).mpr h, rfl⟩)
  · intro h
    exact (mem_foldl_appendIfTruthy _ _ _).mpr
      (Or.inr ⟨("signer_email", c.signer_email), by simp [criteriaEntries],
        (appendCond_iff _).mpr h, rfl⟩)
  · intro h
    exact (mem_foldl_appendIfTruthy _ _ _).mpr
      (Or.inr ⟨("status", c.status), by simp [criteriaEntries],
        (appendCond_iff _).mpr h, rfl⟩)
  · intro h
    exact (mem_foldl_appendIfTruthy _ _ _).mpr
      (Or.inr ⟨("service", c.service), by simp [criteriaEntries],
        (appendCond_iff _).mpr h, rfl⟩)
  · intro p hp
    rcases (mem_foldl_appendIfTruthy _ _ _).mp hp with h | ⟨kv, hkv, hcond, hpe⟩
    · exact Or.inl (by simpa using h)
    · have hcond' := (appendCond_iff _).mp hcond
      simp only [criteriaEntries, List.mem_cons, List.not_mem_nil, or_false] at hkv
      rcases hkv with h | h | h | h <;> subst h
      · exact Or.inr (Or.inl ⟨hcond', hpe⟩)
      · exact Or.inr (Or.inr (Or.inl ⟨hcond', hpe⟩))
      · exact Or.inr (Or.inr (Or.inr (Or.inl ⟨hcond', hpe⟩)))
      · exact Or.inr (Or.inr (Or.inr (Or.inr ⟨hcond', hpe⟩)))

/-- C7, witness: a criterion with surrounding whitespace is sent trimmed,
alongside the implicit handler. -/
theorem C7_witness :
    jsTrim "  doc-42  " ≠ "" ∧
    ("document_id", jsTrim "  doc-42  ")
      ∈ buildSearchQuery "user@example.com"
          { document_id := "  doc-42  ", signer_email := "   ", status := "",
            service := "" } :=
  ⟨by decide,
   (C7_query_construction "user@example.com"
     { document_id := "  doc-42  ", signer_email := "   ", status := "",
       service := "" }).2.1 (by decide)⟩

/-- C8: validation is fail-fast and nothing is sent on failure — with no
file selected, submission aborts with a field-level reason; with any
signer missing a name or email, submission aborts with a field-level
reason; a non-PDF selection never enters the file state, so a subsequent
submission aborts; and a request is only sent when the file is present
and every signer is complete. -/
theorem C8_validation_fail_fast (file : Option FileObj)
    (signers : List SignerInput) (service : String) :
    (file = none →
      handleSubmit file signers service = .rejected "Please select a PDF file") ∧
    ((∃ s ∈ signers, s.signer_name = "" ∨ s.signer_email = "") →
      ∃ reason, handleSubmit file signers service = .rejected reason) ∧
    (∀ f : FileObj, f.type ≠ "application/pdf" →
      handleSubmit (handleFileChange (some f)).1 signers service
        = .rejected "Please select a PDF file") ∧
    (∀ (sv : String) (sg : List SignerInput),
      handleSubmit file signers service = .sent sv sg →
      file ≠ none ∧ ∀ s ∈ signers, s.signer_name ≠ "" ∧ s.signer_email ≠ "") := by
  refine ⟨?_, ?_, ?_, ?_⟩
  · intro h
    subst h
    rfl
  · intro ⟨s, hs, hemp⟩
    cases file with
    | none => exact ⟨"Please select a PDF file", rfl⟩
    | some f =>
      refine ⟨"Please fill in all signer information", ?_⟩
      have hany : signers.any (fun s => s.signer_name == "" || s.signer_email == "") = true := by
        rw [List.any_eq_true]
        refine ⟨s, hs, ?_⟩
        simp only [Bool.or_eq_true, beq_iff_eq]
        exact hemp
      simp [handleSubmit, hany]
  · intro f hf
    have hfile : (handleFileChange (some f)).1 = none := by
      simp [handleFileChange, hf]
    rw [hfile]
    rfl
  · intro sv sg hsent
    unfold handleSubmit at hsent
    by_cases hfile : file.isNone
    · rw [if_pos hfile] at hsent
      exact absurd hsent (by simp)
    · rw [if_neg hfile] at hsent
      by_cases hany : signers.any (fun s => s.signer_name == "" || s.signer_email == "") = true
      · rw [if_pos hany] at hsent
        exact absurd hsent (by simp)
      · refine ⟨by simpa [Option.isNone_iff_eq_none] using hfile, ?_⟩
        intro s hs
        have hanyf : signers.any (fun s => s.signer_name == "" || s.signer_email == "")
            = false := by
          cases hv : signers.any (fun s => s.signer_name == "" || s.signer_email == "") with
          | false => rfl
          | true => exact absurd hv hany
        have := (List.any_eq_false.mp hanyf) s hs
        simp only [Bool.or_eq_true, beq_iff_eq, not_or] at this
        exact this

/-- C8, witness: a text file is rejected by the file handler and a
subsequent submission attempt fails with the file reason; no request is
sent. -/
theorem C8_witness :
    (FileObj.mk "notes.txt" "text/plain").type ≠ "application/pdf" ∧
    handleSubmit (handleFileChange (some (FileObj.mk "notes.txt" "text/plain"))).1
        [{ signer_name := "Ann", signer_email := "ann@x.com", mode := "DIRECT_SIGNING" }]
        "scrive"
      = .rejected "Please select a PDF file" :=
  ⟨by decide,
   (C8_validation_fail_fast (handleFileChange (some (FileObj.mk "notes.txt" "text/plain"))).1
     [{ signer_name := "Ann", signer_email := "ann@x.com", mode := "DIRECT_SIGNING" }]
     "scrive").2.2.1 (FileObj.mk "notes.txt" "text/plain") (by decide)⟩

/-- C9: switching the active service clears the displayed submission
result and error, and leaves every other part of the screen and session
state — in particular `lastDocumentId` and `lastSigningUrl` —
unchanged. -/
theorem C9_service_change_reset (st : SigningScreenState) :
    (onServiceChange st).result = none ∧
    (onServiceChange st).error = "" ∧
    (onServiceChange st).lastDocumentId = st.lastDocumentId ∧
    (onServiceChange st).lastSigningUrl = st.lastSigningUrl ∧
    (onServiceChange st).file = st.file ∧
    (onServiceChange st).signers = st.signers ∧
    (onServiceChange st).loading = st.loading :=
  ⟨rfl, rfl, rfl, rfl, rfl, rfl, rfl⟩

/-- C10: the signer list starts with one entry, `addSigner` grows it by
one, `removeSigner` is a no-op unless more than one signer is present,
and every state reachable through the form interactions keeps at least
one signer. -/
theorem C10_signers_nonempty (ops : List SignerOp) :
    initialSigners.length = 1 ∧
    (∀ signers : List SignerInput, (addSigner signers).length = signers.length + 1) ∧
    (∀ (signers : List SignerInput) (i : Nat),
      signers.length ≤ 1 → removeSigner signers i = signers) ∧
    1 ≤ (runSignerOps ops).length := by
  refine ⟨rfl, ?_, ?_, ?_⟩
  · intro signers
    simp [addSigner]
  · intro signers i h
    unfold removeSigner
    rw [if_neg (by omega)]
  · have hstep : ∀ (signers : List SignerInput) (op : SignerOp),
        1 ≤ signers.length → 1 ≤ (applySignerOp signers op).length := by
      intro signers op h
      cases op with
      | add => simp [applySignerOp, addSigner]
      | remove i =>
        simp only [applySignerOp, removeSigner]
        by_cases hl : signers.length > 1
        · rw [if_pos hl, List.length_eraseIdx]
          split <;> omega
        · rw [if_neg hl]
          exact h
      | change i field value =>
        simp only [applySignerOp, handleSignerChange]
        cases hg : signers.get? i with
        | none => exact h
        | some s => simpa using h
    have hfold : ∀ (l : List SignerOp) (acc : List SignerInput),
        1 ≤ acc.length → 1 ≤ (l.foldl applySignerOp acc).length := by
      intro l
      induction l with
      | nil => intro acc h; simpa using h
      | cons op rest ih =>
        intro acc h
        exact ih (applySignerOp acc op) (hstep acc op h)
    exact hfold ops initialSigners (by decide)

/-- C10, witness: removing the only signer leaves the list unchanged,
and a concrete interaction sequence keeps at least one signer. -/
theorem C10_witness :
    initialSigners.length ≤ 1 ∧
    removeSigner initialSigners 0 = initialSigners ∧
    1 ≤ (runSignerOps [SignerOp.add, SignerOp.remove 0, SignerOp.remove 0]).length :=
  ⟨by decide,
   (C10_signers_nonempty []).2.2.1 initialSigners 0 (by decide),
   (C10_signers_nonempty [SignerOp.add, SignerOp.remove 0, SignerOp.remove 0]).2.2.2⟩

end Poc

